import Mathlib

/-!
Verification development for the gazetteer-gnd-mapping repository.

The Python modules `import.py`, `fuzzy.py` and `export.py` are shallowly
embedded below.  Strings are modelled as `List Char`, SQLite tables as
lists of row structures, commits as explicit lists of database snapshots,
and floating point similarity scores as rationals.  The external sqlean
extension functions `translit` and `jaro_winkler` as well as the SQL
schema constraints (which live outside the embedded sources) are modelled
from the specification where noted.
-/

namespace GazGnd

/-- Python truthiness filter used by the importer: `obj.get(key)` followed by
`if not value: continue` skips both a missing key and an empty string. -/
def truthy (o : Option (List Char)) : Option (List Char) :=
  match o with
  | none => none
  | some v => if v = [] then none else some v

/-- Helper for `pyFind`: scans the list keeping the index of the current
position. -/
def pyFindAux (s : List Char) (c : Char) (i : Nat) : Int :=
  match s with
  | [] => -1
  | x :: rest => if x = c then (i : Int) else pyFindAux rest c (i + 1)

/-- Python `str.find`: index of the first occurrence of the character, `-1`
when the character does not occur. -/
def pyFind (s : List Char) (c : Char) : Int := pyFindAux s c 0

/-- Old-authority parsing from `db_import_dnb` in `import.py`: `i = value.find('(')`,
`j = value.find(')')`; when `i == 0 and j > 1` the slices `value[i+1:j]` and
`value[j+1:]` become the stored prefix and gnd id, otherwise both stay null. -/
def parseOldAuth (v : List Char) : Option (List Char) × Option (List Char) :=
  let i := pyFind v '('
  let j := pyFind v ')'
  if i = 0 ∧ j > 1 then
    (some ((v.drop 1).take (j.toNat - 1)), some (v.drop (j.toNat + 1)))
  else
    (none, none)

/-- Modelled from the spec: the sqlean `translit` text normaliser is not part
of the embedded sources; section 4.2 requires case folding and reduction of
accented letters to unaccented ASCII-range equivalents. -/
def foldChar (c : Char) : Char :=
  let c := c.toLower
  match c with
  | 'ä' => 'a'
  | 'ö' => 'o'
  | 'ü' => 'u'
  | 'ß' => 's'
  | 'é' => 'e'
  | 'è' => 'e'
  | 'á' => 'a'
  | 'à' => 'a'
  | _ => c

/-- Modelled from the spec: normalisation applied to both sides of every
comparison (section 4.2). -/
def translit (s : List Char) : List Char := s.map foldChar

/-- Matching window of the Jaro metric (section 4.3); natural subtraction
clamps the window at zero for very short strings. -/
def matchWindow (l1 l2 : Nat) : Nat := max l1 l2 / 2 - 1

/-- Search for the first unconsumed index of `s2` inside the window around
position `i` holding a character equal to `c`. -/
def findMatchJ (c : Char) (s2 : List Char) (lo hi : Nat) (consumed : List Nat) : Option Nat :=
  (List.range s2.length).find?
    (fun j => decide (lo ≤ j) && decide (j ≤ hi) && !(consumed.contains j) && (s2.getD j 'a' == c))

/-- One step of the left-to-right greedy matching pass of the Jaro metric:
position `i` of `s1` is matched against the first free position of `s2`
within the window, each target position consumed at most once. -/
def jaroMatchStep (s1 s2 : List Char) (w : Nat) (acc : List (Nat × Nat)) (i : Nat) :
    List (Nat × Nat) :=
  match findMatchJ (s1.getD i 'a') s2 (i - w) (i + w) (acc.map Prod.snd) with
  | some j => acc ++ [(i, j)]
  | none => acc

/-- Modelled from the spec: the matched index pairs of the Jaro metric
(section 4.3), scanned left to right over `s1`. -/
def jaroMatches (s1 s2 : List Char) (w : Nat) : List (Nat × Nat) :=
  (List.range s1.length).foldl (jaroMatchStep s1 s2 w) []

/-- Characters of `s2` at the matched positions, taken in ascending index
order. -/
def matchedS2 (s2 : List Char) (js : List Nat) : List Char :=
  ((List.range s2.length).filter (fun j => js.contains j)).map (fun j => s2.getD j 'a')

/-- Number of positions at which the two matched character sequences
disagree; the Jaro transposition count is half of this. -/
def transCount (a b : List Char) : Nat := (a.zip b).countP (fun p => p.1 != p.2)

/-- Discrete part of the Jaro computation: the number `m` of matching
characters and the raw disagreement count among matched characters. -/
def jaroData (s1 s2 : List Char) : Nat × Nat :=
  ((jaroMatches s1 s2 (matchWindow s1.length s2.length)).length,
   transCount
     ((jaroMatches s1 s2 (matchWindow s1.length s2.length)).map (fun p => s1.getD p.1 'a'))
     (matchedS2 s2 ((jaroMatches s1 s2 (matchWindow s1.length s2.length)).map Prod.snd)))

/-- Modelled from the spec: the Jaro similarity (section 4.3); zero when no
character matches, otherwise the mean of the three classical fractions with
the transposition count halved. -/
def jaroSim (s1 s2 : List Char) : ℚ :=
  if (jaroData s1 s2).1 = 0 then 0
  else
    (((jaroData s1 s2).1 : ℚ) / s1.length + ((jaroData s1 s2).1 : ℚ) / s2.length +
      (((jaroData s1 s2).1 : ℚ) - ((jaroData s1 s2).2 : ℚ) / 2) / ((jaroData s1 s2).1 : ℚ)) / 3

/-- Invariant of the greedy matching state: all consumed target positions
are valid indices of `s2` and no position is consumed twice. -/
def sndOk (s2 : List Char) (acc : List (Nat × Nat)) : Prop :=
  (∀ j ∈ acc.map Prod.snd, j < s2.length) ∧ (acc.map Prod.snd).Nodup

/-- Length of the common prefix of two character lists. -/
def commonStartLen : List Char → List Char → Nat
  | c1 :: r1, c2 :: r2 => if c1 = c2 then commonStartLen r1 r2 + 1 else 0
  | _, _ => 0

/-- Modelled from the spec: the sqlean `jaro_winkler` scorer is not part of
the embedded sources; section 4.3 gives Jaro plus the Winkler boost over a
common prefix of at most four characters.  The policy for two empty strings
is fixed to the documented option 1.0 (both absent), which is the choice
consistent with the stated property that exact equality of normalised
strings yields 1.0. -/
def jaro_winkler (s1 s2 : List Char) : ℚ :=
  if s1 = [] ∧ s2 = [] then 1
  else
    jaroSim s1 s2 +
      min ((commonStartLen s1 s2 : ℚ)) 4 * (1 / 10) * (1 - jaroSim s1 s2)

/-- Row of the `dnb_meta` table filled by `db_import_dnb`. -/
structure DnbMetaRow where
  id : Nat
  dnb_id : List Char
  pref_name : Option (List Char)
  owl_geonames : Option (List Char)
  owl_gnd : Option (List Char)
  owl_loc : Option (List Char)
  owl_viaf : Option (List Char)
  owl_wikidata : Option (List Char)
deriving DecidableEq, Repr

/-- Row of the `dnb_name` table; `dnb_meta_id` comes from a scalar subquery
and is therefore nullable at the SQL level. -/
structure DnbNameRow where
  id : Nat
  dnb_meta_id : Option Nat
  var_name : List Char
deriving DecidableEq, Repr

/-- Row of the `dnb_old_auth` table; `pfx` models the `prefix` column. -/
structure DnbOldAuthRow where
  id : Nat
  dnb_meta_id : Option Nat
  number : List Char
  pfx : Option (List Char)
  gnd_id : Option (List Char)
deriving DecidableEq, Repr

/-- Row of the `gaz_meta` table. -/
structure GazMetaRow where
  id : Nat
  gaz_id : List Char
  pref_title : Option (List Char)
deriving DecidableEq, Repr

/-- Row of the `gaz_name` table. -/
structure GazNameRow where
  id : Nat
  gaz_id : List Char
  title : List Char
deriving DecidableEq, Repr

/-- Row of the `fuzzy_meta` match table. -/
structure FuzzyMetaRow where
  dnb_meta_id : Nat
  gaz_meta_id : Nat
  jarow : ℚ
deriving DecidableEq, Repr

/-- Row of the `fuzzy_name` match table. -/
structure FuzzyNameRow where
  dnb_name_id : Nat
  gaz_name_id : Nat
  jarow : ℚ
deriving DecidableEq, Repr

/-- The SQLite database as lists of rows plus autoincrement counters. -/
structure DB where
  dnb_meta : List DnbMetaRow
  dnb_name : List DnbNameRow
  dnb_old_auth : List DnbOldAuthRow
  gaz_meta : List GazMetaRow
  gaz_name : List GazNameRow
  fuzzy_meta : List FuzzyMetaRow
  fuzzy_name : List FuzzyNameRow
  nextDnbMetaId : Nat
  nextDnbNameId : Nat
  nextOldAuthId : Nat
deriving DecidableEq, Repr

/-- The empty database. -/
def emptyDB : DB := ⟨[], [], [], [], [], [], [], 1, 1, 1⟩

/-- Rows produced by the `INSERT ... SELECT` of `db_fuzzy_match_meta`:
cross join of `dnb_meta` and `gaz_meta`, scored by
`jaro_winkler(translit(pref_name), translit(pref_title))` and filtered by
`jw >= threshold`; a SQL NULL name yields a NULL score, which the WHERE
clause drops. -/
def metaCandidates (st : DB) (t : ℚ) : List FuzzyMetaRow :=
  st.dnb_meta.flatMap fun d =>
    st.gaz_meta.filterMap fun g =>
      match d.pref_name, g.pref_title with
      | some x, some y =>
          let jw := jaro_winkler (translit x) (translit y)
          if t ≤ jw then some ⟨d.id, g.id, jw⟩ else none
      | _, _ => none

/-- Embedding of `db_fuzzy_match_meta` from `fuzzy.py`: appends the
qualifying cross-join rows to `fuzzy_meta` (the SQL INSERT does not clear
the table). -/
def db_fuzzy_match_meta (st : DB) (t : ℚ) : DB :=
  { st with fuzzy_meta := st.fuzzy_meta ++ metaCandidates st t }

/-- Rows produced by the `INSERT ... SELECT` of `db_fuzzy_match_names`:
cross join of `dnb_name` and `gaz_name` filtered by `jw >= threshold`. -/
def nameCandidates (st : DB) (t : ℚ) : List FuzzyNameRow :=
  st.dnb_name.flatMap fun d =>
    st.gaz_name.filterMap fun g =>
      let jw := jaro_winkler (translit d.var_name) (translit g.title)
      if t ≤ jw then some ⟨d.id, g.id, jw⟩ else none

/-- Embedding of `db_fuzzy_match_names` from `fuzzy.py`. -/
def db_fuzzy_match_names (st : DB) (t : ℚ) : DB :=
  { st with fuzzy_name := st.fuzzy_name ++ nameCandidates st t }

/-- Embedding of `db_init` from `fuzzy.py`: deletes all rows of both
`fuzzy_meta` and `fuzzy_name`, then commits. -/
def db_init (st : DB) : DB :=
  { st with fuzzy_meta := [], fuzzy_name := [] }

/-- Embedding of the `__main__` driver of `fuzzy.py`: `db_init` runs first
and commits its deletes, then each requested category is matched and
committed.  The second component lists the database snapshots at each
commit point, in order. -/
def fuzzyMain (st : DB) (meta names : Bool) (t : ℚ) : DB × List DB :=
  let st0 := db_init st
  let st1 := if meta then db_fuzzy_match_meta st0 t else st0
  let st2 := if names then db_fuzzy_match_names st1 t else st1
  (st2, [st0] ++ (if meta then [st1] else []) ++ (if names then [st2] else []))

/-- Log events emitted by `json_import_dnb` in `import.py`, in source
order: the per-object debug messages, the progress message every 10000
accepted objects, and the duplicate warning. -/
inductive LogEvent where
  | noId (n : Nat)
  | ignored (objId : List Char)
  | importing (dnbId : List Char) (n : Nat)
  | progress (n : Nat)
  | duplicate (dnbId : List Char)
  | total (n : Nat)
deriving DecidableEq, Repr

/-- Result of a record-level import: the final database together with the
database snapshots at each commit point executed by the call. -/
structure ImportResult where
  db : DB
  commits : List DB
deriving DecidableEq, Repr

/-- Looks up `SELECT id FROM dnb_meta WHERE dnb_id = ?`. -/
def lookupDnbMetaId (st : DB) (d : List Char) : Option Nat :=
  (st.dnb_meta.find? (fun r => r.dnb_id == d)).map (fun r => r.id)

/-- Inserts the filtered variant names as `dnb_name` rows, each resolving
its parent through the scalar subquery on `dnb_id`. -/
def insertVarNames (st : DB) (vs : List (List Char × List Char)) : DB :=
  vs.foldl
    (fun acc v =>
      { acc with
        dnb_name := acc.dnb_name ++ [⟨acc.nextDnbNameId, lookupDnbMetaId acc v.1, v.2⟩],
        nextDnbNameId := acc.nextDnbNameId + 1 })
    st

/-- Inserts the old-authority tuples as `dnb_old_auth` rows after parsing
each raw value with `parseOldAuth`. -/
def insertOldAuths (st : DB) (vs : List (List Char × List Char)) : DB :=
  vs.foldl
    (fun acc v =>
      let parsed := parseOldAuth v.2
      { acc with
        dnb_old_auth :=
          acc.dnb_old_auth ++ [⟨acc.nextOldAuthId, lookupDnbMetaId acc v.1, v.2, parsed.1, parsed.2⟩],
        nextOldAuthId := acc.nextOldAuthId + 1 })
    st

/-- Python truthiness of an optional list argument, as in
`if var_names and len(var_names) > 0`. -/
def truthyList (o : Option (List (List Char × List Char))) : Option (List (List Char × List Char)) :=
  match o with
  | none => none
  | some [] => none
  | some l => some l

/-- Embedding of `db_import_dnb` from `import.py`.  The UNIQUE constraint
on `dnb_meta.dnb_id` is modelled from the spec (the SQL schema file is not
among the embedded sources; the spec states that duplicate ids raise an
integrity violation).  A duplicate id makes the parent INSERT fail before
any commit; otherwise the parent row is committed first, then the variant
name rows if any, then the old-authority rows if any, each batch with its
own commit. -/
def db_import_dnb (st : DB) (dnbId : List Char) (prefName : Option (List Char))
    (owlGeo owlGnd owlLoc owlViaf owlWiki : Option (List Char))
    (varNames oldAuths : Option (List (List Char × List Char))) :
    Except Unit ImportResult :=
  if st.dnb_meta.any (fun r => r.dnb_id == dnbId) then
    .error ()
  else
    let st1 :=
      { st with
        dnb_meta :=
          st.dnb_meta ++
            [⟨st.nextDnbMetaId, dnbId, prefName, owlGeo, owlGnd, owlLoc, owlViaf, owlWiki⟩],
        nextDnbMetaId := st.nextDnbMetaId + 1 }
    match truthyList varNames, truthyList oldAuths with
    | none, none => .ok ⟨st1, [st1]⟩
    | some vs, none =>
        let st2 := insertVarNames st1 vs
        .ok ⟨st2, [st1, st2]⟩
    | none, some os =>
        let st3 := insertOldAuths st1 os
        .ok ⟨st3, [st1, st3]⟩
    | some vs, some os =>
        let st2 := insertVarNames st1 vs
        let st3 := insertOldAuths st2 os
        .ok ⟨st3, [st1, st2, st3]⟩

/-- One JSON-LD node of the DNB dump, restricted to the keys the importer
reads: the `@id` IRI, the entries of the owl same-as list (each entry's own
`@id`), and the `@value` fields of the preferred name, variant name and
old-authority lists. -/
structure DnbObj where
  atId : Option (List Char)
  owlSameAs : List (Option (List Char))
  prefNameList : List (Option (List Char))
  varNameList : List (Option (List Char))
  oldAuthList : List (Option (List Char))
deriving DecidableEq, Repr

/-- The five owl same-as cross references accumulated by the import loop. -/
structure OwlIds where
  geonames : Option (List Char)
  gnd : Option (List Char)
  loc : Option (List Char)
  viaf : Option (List Char)
  wikidata : Option (List Char)
deriving DecidableEq, Repr

/-- IRI namespace of DNB entities. -/
def dnbIdent : List Char := "https://d-nb.info/gnd/".toList

/-- IRI namespace of geonames cross references. -/
def owlGeonamesIdent : List Char := "https://sws.geonames.org/".toList

/-- IRI namespace of GND cross references. -/
def owlGndIdent : List Char := "https://d-nb.info/gnd/".toList

/-- IRI namespace of Library of Congress cross references. -/
def owlLocIdent : List Char := "http://id.loc.gov/rwo/agents/".toList

/-- IRI namespace of VIAF cross references. -/
def owlViafIdent : List Char := "http://viaf.org/viaf/".toList

/-- IRI namespace of Wikidata cross references. -/
def owlWikidataIdent : List Char := "http://www.wikidata.org/entity/".toList

/-- One iteration of the owl same-as loop in `json_import_dnb`: a falsy
entry is skipped, otherwise each of the five independent `startswith`
checks overwrites its accumulator field with the suffix after the
namespace. -/
def owlStep (acc : OwlIds) (entry : Option (List Char)) : OwlIds :=
  match truthy entry with
  | none => acc
  | some v =>
      let acc := if owlGeonamesIdent.isPrefixOf v then
        { acc with geonames := some (v.drop owlGeonamesIdent.length) } else acc
      let acc := if owlGndIdent.isPrefixOf v then
        { acc with gnd := some (v.drop owlGndIdent.length) } else acc
      let acc := if owlLocIdent.isPrefixOf v then
        { acc with loc := some (v.drop owlLocIdent.length) } else acc
      let acc := if owlViafIdent.isPrefixOf v then
        { acc with viaf := some (v.drop owlViafIdent.length) } else acc
      if owlWikidataIdent.isPrefixOf v then
        { acc with wikidata := some (v.drop owlWikidataIdent.length) } else acc

/-- The owl same-as extraction loop of `json_import_dnb`. -/
def extractOwl (entries : List (Option (List Char))) : OwlIds :=
  entries.foldl owlStep ⟨none, none, none, none, none⟩

/-- Specification-side view of one owl entry for a single namespace: the
identifier the entry would contribute, `none` when the entry is falsy or
does not carry the namespace. -/
def matchOwl (ident : List Char) (entry : Option (List Char)) : Option (List Char) :=
  match truthy entry with
  | none => none
  | some v => if ident.isPrefixOf v then some (v.drop ident.length) else none

/-- The last non-`none` element of a list of options, if any. -/
def lastSome (l : List (Option (List Char))) : Option (List Char) :=
  l.foldl (fun acc x => match x with | some v => some v | none => acc) none

/-- State threaded through the object loop of `json_import_dnb`: the
database, the accepted-object counter `n`, the log, and the cumulative
commit snapshots. -/
structure IngestState where
  db : DB
  n : Nat
  log : List LogEvent
  commits : List DB
deriving DecidableEq, Repr

/-- Embedding of one iteration of the object loop of `json_import_dnb`:
reject objects with a falsy `@id`, reject objects outside the DNB
namespace or ending in `/about`, otherwise extract the fields and import,
catching the duplicate-id integrity error. -/
def processDnbObj (oldAuth : Bool) (st : IngestState) (obj : DnbObj) : IngestState :=
  match truthy obj.atId with
  | none => { st with log := st.log ++ [.noId st.n] }
  | some objId =>
    if ¬ (dnbIdent.isPrefixOf objId) ∨ ("/about".toList).isSuffixOf objId then
      { st with log := st.log ++ [.ignored objId] }
    else
      let dnbId := objId.drop dnbIdent.length
      let owl := extractOwl obj.owlSameAs
      let prefName := (obj.prefNameList.head?).bind id
      let varNames : Option (List (List Char × List Char)) :=
        if obj.varNameList = [] then none
        else some (obj.varNameList.filterMap (fun e => (truthy e).map (fun v => (dnbId, v))))
      let oldAuths : Option (List (List Char × List Char)) :=
        if oldAuth then
          if obj.oldAuthList = [] then none
          else some (obj.oldAuthList.filterMap (fun e => (truthy e).map (fun v => (dnbId, v))))
        else none
      let log1 := st.log ++ [.importing dnbId st.n]
      match db_import_dnb st.db dnbId prefName owl.geonames owl.gnd owl.loc owl.viaf owl.wikidata
          varNames oldAuths with
      | .ok res =>
          let n1 := st.n + 1
          { db := res.db, n := n1,
            log := log1 ++ (if n1 % 10000 = 0 then [.progress n1] else []),
            commits := st.commits ++ res.commits }
      | .error _ => { st with log := log1 ++ [.duplicate dnbId] }

/-- Embedding of `json_import_dnb` from `import.py`: fold the object loop
over the streamed objects starting from the given database, then log the
final total. -/
def json_import_dnb (oldAuth : Bool) (db0 : DB) (objs : List DnbObj) : IngestState :=
  let st := objs.foldl (processDnbObj oldAuth) ⟨db0, 0, [], []⟩
  { st with log := st.log ++ [.total st.n] }

/-- Number of records rejected for a missing `@id`, observable as the count
of the corresponding log events. -/
def rejectedCount (log : List LogEvent) : Nat :=
  log.countP (fun e => match e with | .noId _ => true | _ => false)

/-- Number of duplicate-id warnings in the log that name the given id. -/
def duplicateCount (log : List LogEvent) (d : List Char) : Nat :=
  log.countP (fun e => match e with | .duplicate x => x == d | _ => false)

/-- WHERE clause of `db_export_fuzzy_meta` in `export.py`: a row is kept
when its stored score is at least the export threshold. -/
def exportMetaKeeps (jw t : ℚ) : Bool := t ≤ jw

/-- WHERE clause of `db_export_fuzzy_names` in `export.py`: a row is kept
only when its stored score strictly exceeds the export threshold. -/
def exportNamesKeeps (jw t : ℚ) : Bool := t < jw

/-! ### Properties of the modelled Jaro-Winkler scorer -/

theorem range_split {n m : Nat} (h : n < m) :
    ∃ t, List.range m = List.range n ++ n :: t := by
  have h1 : m = n + ((m - n - 1) + 1) := by omega
  refine ⟨(List.range (m - n - 1)).map (fun x => n + (x + 1)), ?_⟩
  rw [h1, List.range_add, List.range_succ_eq_map]
  simp [List.map_map, Function.comp_def]

theorem findMatchJ_self (u : List Char) (w : Nat) (n : Nat) (hn : n < u.length) :
    findMatchJ (u.getD n 'a') u (n - w) (n + w) (List.range n) = some n := by
  unfold findMatchJ
  obtain ⟨tl, htl⟩ := range_split hn
  rw [htl, List.find?_append]
  have h1 : (List.range n).find?
      (fun j => decide (n - w ≤ j) && decide (j ≤ n + w) &&
        !((List.range n).contains j) && (u.getD j 'a' == u.getD n 'a')) = none := by
    rw [List.find?_eq_none]
    intro j hj
    have hc : (List.range n).contains j = true := by
      simpa using hj
    rw [hc]
    simp
  rw [h1]
  have h2 : (decide (n - w ≤ n) && decide (n ≤ n + w) &&
      !((List.range n).contains n) && (u.getD n 'a' == u.getD n 'a')) = true := by
    have hc : (List.range n).contains n = false := by
      simp
    simp [hc, Nat.sub_le, Nat.le_add_right]
  simp [List.find?_cons_of_pos _ h2]

theorem jaroMatches_self_aux (u : List Char) (w : Nat) :
    ∀ n, n ≤ u.length →
      (List.range n).foldl (jaroMatchStep u u w) [] = (List.range n).map (fun k => (k, k)) := by
  intro n
  induction n with
  | zero => intro _; simp
  | succ n ih =>
    intro h
    rw [List.range_succ, List.foldl_append, List.map_append, ih (by omega)]
    simp only [List.foldl_cons, List.foldl_nil, List.map_cons, List.map_nil]
    unfold jaroMatchStep
    have hsnd : (List.map (fun k => (k, k)) (List.range n)).map Prod.snd = List.range n := by
      simp [List.map_map, Function.comp_def]
    rw [hsnd, findMatchJ_self u w n (by omega)]

theorem jaroMatches_self (u : List Char) (w : Nat) :
    jaroMatches u u w = (List.range u.length).map (fun k => (k, k)) :=
  jaroMatches_self_aux u w u.length le_rfl

theorem map_getD_range (u : List Char) :
    (List.range u.length).map (fun k => u.getD k 'a') = u := by
  apply List.ext_getElem
  · simp
  · intro i h1 h2
    simp [List.getD_eq_getElem?_getD, List.getElem?_eq_getElem h2]

theorem transCount_self (u : List Char) : transCount u u = 0 := by
  induction u with
  | nil => rfl
  | cons c r ih => simpa [transCount, List.countP_cons] using ih

theorem jaroData_self (u : List Char) : jaroData u u = (u.length, 0) := by
  have hsnd : (List.map (fun k => (k, k)) (List.range u.length)).map Prod.snd
      = List.range u.length := by
    simp [List.map_map, Function.comp_def]
  have hfst : (List.map (fun k => (k, k)) (List.range u.length)).map
      (fun p => u.getD p.1 'a') = u := by
    rw [List.map_map]
    simpa [Function.comp_def] using map_getD_range u
  have hb : matchedS2 u (List.range u.length) = u := by
    unfold matchedS2
    have hf : (List.range u.length).filter (fun j => (List.range u.length).contains j)
        = List.range u.length := by
      rw [List.filter_eq_self]
      intro a ha
      simpa using ha
    rw [hf, map_getD_range]
  unfold jaroData
  rw [jaroMatches_self, hsnd, hfst, hb]
  simp [transCount_self]

theorem jaroSim_self (u : List Char) (hu : u ≠ []) : jaroSim u u = 1 := by
  unfold jaroSim
  rw [jaroData_self]
  have hl : u.length ≠ 0 := by simpa using hu
  have hq : (u.length : ℚ) ≠ 0 := by exact_mod_cast hl
  simp only [hl, if_false]
  field_simp
  ring

theorem jaroWinkler_self (u : List Char) : jaro_winkler u u = 1 := by
  unfold jaro_winkler
  by_cases hu : u = []
  · simp [hu]
  · have h1 : ¬ (u = [] ∧ u = []) := by simp [hu]
    rw [if_neg h1, jaroSim_self u hu]
    ring

theorem jaroMatchStep_length (s1 s2 : List Char) (w : Nat) (acc : List (Nat × Nat)) (i : Nat) :
    (jaroMatchStep s1 s2 w acc i).length ≤ acc.length + 1 := by
  unfold jaroMatchStep
  cases findMatchJ (s1.getD i 'a') s2 (i - w) (i + w) (acc.map Prod.snd) <;> simp

theorem foldl_jaroMatchStep_length (s1 s2 : List Char) (w : Nat) (l : List Nat) :
    ∀ acc : List (Nat × Nat),
      (l.foldl (jaroMatchStep s1 s2 w) acc).length ≤ acc.length + l.length := by
  induction l with
  | nil => intro acc; simp
  | cons i l ih =>
    intro acc
    calc (List.foldl (jaroMatchStep s1 s2 w) (jaroMatchStep s1 s2 w acc i) l).length
        ≤ (jaroMatchStep s1 s2 w acc i).length + l.length := ih _
      _ ≤ (acc.length + 1) + l.length := by
          have := jaroMatchStep_length s1 s2 w acc i
          omega
      _ = acc.length + (i :: l).length := by simp; omega

theorem jaroMatches_length_le_left (s1 s2 : List Char) (w : Nat) :
    (jaroMatches s1 s2 w).length ≤ s1.length := by
  have := foldl_jaroMatchStep_length s1 s2 w (List.range s1.length) []
  simpa [jaroMatches] using this

theorem jaroMatchStep_sndOk (s1 s2 : List Char) (w : Nat) (acc : List (Nat × Nat)) (i : Nat)
    (h : sndOk s2 acc) : sndOk s2 (jaroMatchStep s1 s2 w acc i) := by
  unfold jaroMatchStep
  cases hf : findMatchJ (s1.getD i 'a') s2 (i - w) (i + w) (acc.map Prod.snd) with
  | none => exact h
  | some j =>
    have hmem : j ∈ List.range s2.length := List.mem_of_find?_eq_some hf
    have hj2 : j < s2.length := List.mem_range.mp hmem
    have hp := List.find?_some hf
    have hnotin : j ∉ acc.map Prod.snd := by
      intro hin
      have hc : (acc.map Prod.snd).contains j = true := by simpa using hin
      rw [hc] at hp
      simp at hp
    constructor
    · intro x hx
      rw [List.map_append] at hx
      rcases List.mem_append.mp hx with hx1 | hx2
      · exact h.1 x hx1
      · simp at hx2
        omega
    · rw [List.map_append]
      simp only [List.map_cons, List.map_nil]
      rw [List.nodup_append]
      refine ⟨h.2, by simp, ?_⟩
      intro x hx1 hx2
      simp at hx2
      subst hx2
      exact hnotin hx1

theorem foldl_jaroMatchStep_sndOk (s1 s2 : List Char) (w : Nat) (l : List Nat) :
    ∀ acc : List (Nat × Nat), sndOk s2 acc → sndOk s2 (l.foldl (jaroMatchStep s1 s2 w) acc) := by
  induction l with
  | nil => intro acc h; simpa using h
  | cons i l ih =>
    intro acc h
    exact ih _ (jaroMatchStep_sndOk s1 s2 w acc i h)

theorem jaroMatches_sndOk (s1 s2 : List Char) (w : Nat) : sndOk s2 (jaroMatches s1 s2 w) := by
  exact foldl_jaroMatchStep_sndOk s1 s2 w (List.range s1.length) [] (by constructor <;> simp)

theorem length_le_of_nodup_lt (l : List Nat) (n : Nat) (hd : l.Nodup) (hlt : ∀ j ∈ l, j < n) :
    l.length ≤ n := by
  have h1 : l.toFinset.card = l.length := List.toFinset_card_of_nodup hd
  have h2 : l.toFinset ⊆ Finset.range n := by
    intro x hx
    rw [List.mem_toFinset] at hx
    rw [Finset.mem_range]
    exact hlt x hx
  calc l.length = l.toFinset.card := h1.symm
    _ ≤ (Finset.range n).card := Finset.card_le_card h2
    _ = n := Finset.card_range n

theorem jaroData_fst_le_left (s1 s2 : List Char) : (jaroData s1 s2).1 ≤ s1.length :=
  jaroMatches_length_le_left s1 s2 (matchWindow s1.length s2.length)

theorem jaroData_fst_le_right (s1 s2 : List Char) : (jaroData s1 s2).1 ≤ s2.length := by
  have h := jaroMatches_sndOk s1 s2 (matchWindow s1.length s2.length)
  have := length_le_of_nodup_lt
    ((jaroMatches s1 s2 (matchWindow s1.length s2.length)).map Prod.snd) s2.length h.2 h.1
  simpa [jaroData] using this

theorem jaroData_snd_le_fst (s1 s2 : List Char) : (jaroData s1 s2).2 ≤ (jaroData s1 s2).1 := by
  unfold jaroData
  simp only
  calc transCount _ _ ≤ _ := List.countP_le_length _
    _ ≤ (jaroMatches s1 s2 (matchWindow s1.length s2.length)).length := by
        rw [List.length_zip]
        simp

theorem jaroSim_bounds (s1 s2 : List Char) : 0 ≤ jaroSim s1 s2 ∧ jaroSim s1 s2 ≤ 1 := by
  unfold jaroSim
  by_cases h0 : (jaroData s1 s2).1 = 0
  · simp [h0]
  · rw [if_neg h0]
    have hm1 : 1 ≤ (jaroData s1 s2).1 := Nat.one_le_iff_ne_zero.mpr h0
    have hl1 : (jaroData s1 s2).1 ≤ s1.length := jaroData_fst_le_left s1 s2
    have hl2 : (jaroData s1 s2).1 ≤ s2.length := jaroData_fst_le_right s1 s2
    have ht : (jaroData s1 s2).2 ≤ (jaroData s1 s2).1 := jaroData_snd_le_fst s1 s2
    have hm1q : (1 : ℚ) ≤ ((jaroData s1 s2).1 : ℚ) := by exact_mod_cast hm1
    have hl1q : ((jaroData s1 s2).1 : ℚ) ≤ (s1.length : ℚ) := by exact_mod_cast hl1
    have hl2q : ((jaroData s1 s2).1 : ℚ) ≤ (s2.length : ℚ) := by exact_mod_cast hl2
    have htq : ((jaroData s1 s2).2 : ℚ) ≤ ((jaroData s1 s2).1 : ℚ) := by exact_mod_cast ht
    have ht0 : (0 : ℚ) ≤ ((jaroData s1 s2).2 : ℚ) := by positivity
    have hL1 : (0 : ℚ) < (s1.length : ℚ) := lt_of_lt_of_le (by norm_num) (le_trans hm1q hl1q)
    have hL2 : (0 : ℚ) < (s2.length : ℚ) := lt_of_lt_of_le (by norm_num) (le_trans hm1q hl2q)
    have hM : (0 : ℚ) < ((jaroData s1 s2).1 : ℚ) := lt_of_lt_of_le (by norm_num) hm1q
    have e1 : (0 : ℚ) ≤ ((jaroData s1 s2).1 : ℚ) / (s1.length : ℚ) := by positivity
    have e2 : (0 : ℚ) ≤ ((jaroData s1 s2).1 : ℚ) / (s2.length : ℚ) := by positivity
    have e3 : (0 : ℚ) ≤ (((jaroData s1 s2).1 : ℚ) - ((jaroData s1 s2).2 : ℚ) / 2) /
        ((jaroData s1 s2).1 : ℚ) := by
      apply div_nonneg _ (le_of_lt hM)
      nlinarith
    have u1 : ((jaroData s1 s2).1 : ℚ) / (s1.length : ℚ) ≤ 1 := by
      rw [div_le_one hL1]; exact hl1q
    have u2 : ((jaroData s1 s2).1 : ℚ) / (s2.length : ℚ) ≤ 1 := by
      rw [div_le_one hL2]; exact hl2q
    have u3 : (((jaroData s1 s2).1 : ℚ) - ((jaroData s1 s2).2 : ℚ) / 2) /
        ((jaroData s1 s2).1 : ℚ) ≤ 1 := by
      rw [div_le_one hM]; nlinarith
    constructor
    · positivity
    · nlinarith

theorem jaroWinkler_bounds (s1 s2 : List Char) :
    0 ≤ jaro_winkler s1 s2 ∧ jaro_winkler s1 s2 ≤ 1 := by
  unfold jaro_winkler
  by_cases h : s1 = [] ∧ s2 = []
  · simp [h]
  · rw [if_neg h]
    obtain ⟨hj0, hj1⟩ := jaroSim_bounds s1 s2
    have hp0 : (0 : ℚ) ≤ min ((commonStartLen s1 s2 : ℚ)) 4 := by
      apply le_min <;> positivity
    have hp4 : min ((commonStartLen s1 s2 : ℚ)) 4 ≤ 4 := min_le_right _ _
    constructor
    · nlinarith
    · nlinarith

/-! ### Membership in the generated match candidates -/

theorem mem_metaCandidates {st : DB} {t : ℚ} {r : FuzzyMetaRow} :
    r ∈ metaCandidates st t ↔
      ∃ d ∈ st.dnb_meta, ∃ g ∈ st.gaz_meta, ∃ x y,
        d.pref_name = some x ∧ g.pref_title = some y ∧
        r = ⟨d.id, g.id, jaro_winkler (translit x) (translit y)⟩ ∧
        t ≤ jaro_winkler (translit x) (translit y) := by
  unfold metaCandidates
  rw [List.mem_flatMap]
  constructor
  · rintro ⟨d, hd, hr⟩
    rw [List.mem_filterMap] at hr
    obtain ⟨g, hg, hfg⟩ := hr
    refine ⟨d, hd, g, hg, ?_⟩
    cases hx : d.pref_name with
    | none => rw [hx] at hfg; simp at hfg
    | some x =>
      cases hy : g.pref_title with
      | none => rw [hx, hy] at hfg; simp at hfg
      | some y =>
        rw [hx, hy] at hfg
        dsimp only at hfg
        by_cases hle : t ≤ jaro_winkler (translit x) (translit y)
        · rw [if_pos hle] at hfg
          exact ⟨x, y, rfl, rfl, (Option.some_inj.mp hfg).symm, hle⟩
        · rw [if_neg hle] at hfg
          exact absurd hfg (by simp)
  · rintro ⟨d, hd, g, hg, x, y, hx, hy, rfl, hle⟩
    refine ⟨d, hd, ?_⟩
    rw [List.mem_filterMap]
    refine ⟨g, hg, ?_⟩
    rw [hx, hy]
    simp [hle]

theorem mem_nameCandidates {st : DB} {t : ℚ} {r : FuzzyNameRow} :
    r ∈ nameCandidates st t ↔
      ∃ d ∈ st.dnb_name, ∃ g ∈ st.gaz_name,
        r = ⟨d.id, g.id, jaro_winkler (translit d.var_name) (translit g.title)⟩ ∧
        t ≤ jaro_winkler (translit d.var_name) (translit g.title) := by
  unfold nameCandidates
  rw [List.mem_flatMap]
  constructor
  · rintro ⟨d, hd, hr⟩
    rw [List.mem_filterMap] at hr
    obtain ⟨g, hg, hfg⟩ := hr
    refine ⟨d, hd, g, hg, ?_⟩
    by_cases hle : t ≤ jaro_winkler (translit d.var_name) (translit g.title)
    · rw [if_pos hle] at hfg
      exact ⟨(Option.some_inj.mp hfg).symm, hle⟩
    · rw [if_neg hle] at hfg
      exact absurd hfg (by simp)
  · rintro ⟨d, hd, g, hg, rfl, hle⟩
    refine ⟨d, hd, ?_⟩
    rw [List.mem_filterMap]
    exact ⟨g, hg, by simp [hle]⟩

/-! ### Claim theorems -/

/-- C8: for every string, the scorer applied to the normalised string paired
with itself returns exactly 1, and every score lies in the interval from 0
to 1. -/
theorem c8_scorer_self_one_and_bounded :
    (∀ s : List Char, jaro_winkler (translit s) (translit s) = 1) ∧
    (∀ a b : List Char, 0 ≤ jaro_winkler a b ∧ jaro_winkler a b ≤ 1) :=
  ⟨fun s => jaroWinkler_self (translit s), fun a b => jaroWinkler_bounds a b⟩

/-- C1 (amended): the match engine retains a cross-join pair as a stored
candidate if and only if its score is at least the threshold, in the meta
category and in the name category alike; a score exactly equal to the
threshold is stored by both matchers.  The strict comparison appears only
in the names export filter of `export.py`, whose WHERE clause drops a row
whose stored score equals the export threshold, while the meta export
keeps it. -/
theorem c1_threshold_comparisons (st : DB) (t : ℚ) :
    (∀ r : FuzzyMetaRow, r ∈ metaCandidates st t ↔
      ∃ d ∈ st.dnb_meta, ∃ g ∈ st.gaz_meta, ∃ x y,
        d.pref_name = some x ∧ g.pref_title = some y ∧
        r = ⟨d.id, g.id, jaro_winkler (translit x) (translit y)⟩ ∧
        t ≤ jaro_winkler (translit x) (translit y)) ∧
    (∀ r : FuzzyNameRow, r ∈ nameCandidates st t ↔
      ∃ d ∈ st.dnb_name, ∃ g ∈ st.gaz_name,
        r = ⟨d.id, g.id, jaro_winkler (translit d.var_name) (translit g.title)⟩ ∧
        t ≤ jaro_winkler (translit d.var_name) (translit g.title)) ∧
    exportMetaKeeps t t = true ∧ exportNamesKeeps t t = false := by
  refine ⟨fun r => mem_metaCandidates, fun r => mem_nameCandidates, ?_, ?_⟩
  · simp [exportMetaKeeps]
  · simp [exportNamesKeeps]

/-- C1 (counterexample): a name pair whose score equals the threshold is
stored by the names matcher, contradicting the claim that the name category
retains a pair only for a score strictly above the threshold. -/
theorem c1_counterexample :
    (⟨1, 1, 1⟩ : FuzzyNameRow) ∈
      (db_fuzzy_match_names
        { emptyDB with
            dnb_name := [⟨1, some 1, "abc".toList⟩],
            gaz_name := [⟨1, "g1".toList, "abc".toList⟩] } 1).fuzzy_name ∧
    ¬ ((1 : ℚ) > 1) := by
  constructor
  · have h1 : jaro_winkler (translit ['a', 'b', 'c']) (translit ['a', 'b', 'c']) = 1 :=
      jaroWinkler_self _
    simp [db_fuzzy_match_names, nameCandidates, emptyDB, h1]
  · norm_num

/-- C7: for the same stored records, matching with a stricter threshold
produces a subset of the candidates produced with a looser threshold, in
both categories. -/
theorem c7_stricter_threshold_subset (st : DB) (t1 t2 : ℚ) (h12 : t1 ≤ t2) :
    (∀ r ∈ metaCandidates st t2, r ∈ metaCandidates st t1) ∧
    (∀ r ∈ nameCandidates st t2, r ∈ nameCandidates st t1) := by
  constructor
  · intro r hr
    obtain ⟨d, hd, g, hg, x, y, hx, hy, hr', hle⟩ := mem_metaCandidates.mp hr
    exact mem_metaCandidates.mpr ⟨d, hd, g, hg, x, y, hx, hy, hr', le_trans h12 hle⟩
  · intro r hr
    obtain ⟨d, hd, g, hg, hr', hle⟩ := mem_nameCandidates.mp hr
    exact mem_nameCandidates.mpr ⟨d, hd, g, hg, hr', le_trans h12 hle⟩

/-- C7 (witness): instantiation at a one-row database, a looser threshold
of 4/5 and a stricter threshold of 1. -/
theorem c7_stricter_threshold_subset_witness :
    (⟨1, 1, 1⟩ : FuzzyMetaRow) ∈
      metaCandidates
        { emptyDB with
            dnb_meta := [⟨1, "d1".toList, some "abc".toList, none, none, none, none, none⟩],
            gaz_meta := [⟨1, "g1".toList, some "abc".toList⟩] } (4 / 5) := by
  apply (c7_stricter_threshold_subset _ (4 / 5) 1 (by norm_num)).1
  have h1 : jaro_winkler (translit ['a', 'b', 'c']) (translit ['a', 'b', 'c']) = 1 :=
    jaroWinkler_self _
  simp [metaCandidates, emptyDB, h1]

/-- C4 (amended): the `__main__` driver of `fuzzy.py` deletes the stored
candidates of both categories before any matching, regardless of which
categories are rerun; afterwards each matched category holds exactly the
candidate set determined by the new threshold, never a union with stale
candidates, and an unmatched category is left empty. -/
theorem c4_rerun_recomputes_exactly (st : DB) (meta names : Bool) (t : ℚ) :
    (fuzzyMain st meta names t).1.fuzzy_meta
        = (if meta then metaCandidates st t else []) ∧
    (fuzzyMain st meta names t).1.fuzzy_name
        = (if names then nameCandidates st t else []) := by
  cases meta <;> cases names <;>
    simp [fuzzyMain, db_init, db_fuzzy_match_meta, db_fuzzy_match_names,
      metaCandidates, nameCandidates]

/-- C4 (counterexample): running only the meta category also deletes the
stored name candidates, contradicting the claim that only the rerun
category is cleared; moreover the deletion is committed on its own before
the insertion commit, so the two do not share one transaction scope. -/
theorem c4_counterexample :
    ((fuzzyMain
        { emptyDB with
            dnb_meta := [⟨1, "d1".toList, some "abc".toList, none, none, none, none, none⟩],
            gaz_meta := [⟨1, "g1".toList, some "abc".toList⟩],
            fuzzy_name := [⟨5, 6, 1⟩] } true false (4 / 5)).1.fuzzy_name = [] ∧
      ([⟨5, 6, 1⟩] : List FuzzyNameRow) ≠ []) ∧
    ((fuzzyMain
        { emptyDB with
            dnb_meta := [⟨1, "d1".toList, some "abc".toList, none, none, none, none, none⟩],
            gaz_meta := [⟨1, "g1".toList, some "abc".toList⟩],
            fuzzy_name := [⟨5, 6, 1⟩] } true false (4 / 5)).2.head? =
        some { emptyDB with
            dnb_meta := [⟨1, "d1".toList, some "abc".toList, none, none, none, none, none⟩],
            gaz_meta := [⟨1, "g1".toList, some "abc".toList⟩] } ∧
      (fuzzyMain
        { emptyDB with
            dnb_meta := [⟨1, "d1".toList, some "abc".toList, none, none, none, none, none⟩],
            gaz_meta := [⟨1, "g1".toList, some "abc".toList⟩],
            fuzzy_name := [⟨5, 6, 1⟩] } true false (4 / 5)).1.fuzzy_meta ≠ []) := by
  have h1 : jaro_winkler (translit ['a', 'b', 'c']) (translit ['a', 'b', 'c']) = 1 :=
    jaroWinkler_self _
  refine ⟨⟨?_, by simp⟩, ?_, ?_⟩
  · simp [fuzzyMain, db_init, db_fuzzy_match_meta, db_fuzzy_match_names]
  · simp [fuzzyMain, db_init, db_fuzzy_match_meta, emptyDB]
  · simp [fuzzyMain, db_init, db_fuzzy_match_meta, db_fuzzy_match_names,
      metaCandidates, emptyDB, h1]
    norm_num

/-! ### Owl same-as extraction -/

theorem owlStep_geonames (acc : OwlIds) (e : Option (List Char)) :
    (owlStep acc e).geonames =
      match matchOwl owlGeonamesIdent e with
      | some v => some v
      | none => acc.geonames := by
  unfold owlStep matchOwl
  cases truthy e with
  | none => rfl
  | some v =>
    dsimp only
    split_ifs <;> rfl

theorem owlStep_gnd (acc : OwlIds) (e : Option (List Char)) :
    (owlStep acc e).gnd =
      match matchOwl owlGndIdent e with
      | some v => some v
      | none => acc.gnd := by
  unfold owlStep matchOwl
  cases truthy e with
  | none => rfl
  | some v =>
    dsimp only
    split_ifs <;> rfl

theorem owlStep_loc (acc : OwlIds) (e : Option (List Char)) :
    (owlStep acc e).loc =
      match matchOwl owlLocIdent e with
      | some v => some v
      | none => acc.loc := by
  unfold owlStep matchOwl
  cases truthy e with
  | none => rfl
  | some v =>
    dsimp only
    split_ifs <;> rfl

theorem owlStep_viaf (acc : OwlIds) (e : Option (List Char)) :
    (owlStep acc e).viaf =
      match matchOwl owlViafIdent e with
      | some v => some v
      | none => acc.viaf := by
  unfold owlStep matchOwl
  cases truthy e with
  | none => rfl
  | some v =>
    dsimp only
    split_ifs <;> rfl

theorem owlStep_wikidata (acc : OwlIds) (e : Option (List Char)) :
    (owlStep acc e).wikidata =
      match matchOwl owlWikidataIdent e with
      | some v => some v
      | none => acc.wikidata := by
  unfold owlStep matchOwl
  cases truthy e with
  | none => rfl
  | some v =>
    dsimp only
    split_ifs <;> rfl

theorem foldl_owlStep_field (proj : OwlIds → Option (List Char)) (ident : List Char)
    (hstep : ∀ acc e, proj (owlStep acc e) =
      match matchOwl ident e with
      | some v => some v
      | none => proj acc) :
    ∀ (entries : List (Option (List Char))) (acc : OwlIds),
      proj (entries.foldl owlStep acc) =
        (entries.map (matchOwl ident)).foldl
          (fun a x => match x with | some v => some v | none => a) (proj acc) := by
  intro entries
  induction entries with
  | nil => intro acc; rfl
  | cons e l ih =>
    intro acc
    rw [List.foldl_cons, List.map_cons, List.foldl_cons, ih, hstep]

/-- C2 (amended): for every namespace, the stored cross-reference identifier
is the one derived from the LAST matching entry in list order (each later
match overwrites the earlier one), and an entry matching no known namespace
leaves all five identifiers unchanged. -/
theorem c2_owl_last_match_wins :
    (∀ entries : List (Option (List Char)),
      (extractOwl entries).geonames = lastSome (entries.map (matchOwl owlGeonamesIdent)) ∧
      (extractOwl entries).gnd = lastSome (entries.map (matchOwl owlGndIdent)) ∧
      (extractOwl entries).loc = lastSome (entries.map (matchOwl owlLocIdent)) ∧
      (extractOwl entries).viaf = lastSome (entries.map (matchOwl owlViafIdent)) ∧
      (extractOwl entries).wikidata = lastSome (entries.map (matchOwl owlWikidataIdent))) ∧
    (∀ (acc : OwlIds) (e : Option (List Char)),
      matchOwl owlGeonamesIdent e = none → matchOwl owlGndIdent e = none →
      matchOwl owlLocIdent e = none → matchOwl owlViafIdent e = none →
      matchOwl owlWikidataIdent e = none → owlStep acc e = acc) := by
  constructor
  · intro entries
    refine ⟨?_, ?_, ?_, ?_, ?_⟩
    · exact foldl_owlStep_field (fun a => a.geonames) owlGeonamesIdent owlStep_geonames entries _
    · exact foldl_owlStep_field (fun a => a.gnd) owlGndIdent owlStep_gnd entries _
    · exact foldl_owlStep_field (fun a => a.loc) owlLocIdent owlStep_loc entries _
    · exact foldl_owlStep_field (fun a => a.viaf) owlViafIdent owlStep_viaf entries _
    · exact foldl_owlStep_field (fun a => a.wikidata) owlWikidataIdent owlStep_wikidata entries _
  · intro acc e h1 h2 h3 h4 h5
    unfold matchOwl at h1 h2 h3 h4 h5
    unfold owlStep
    cases htr : truthy e with
    | none => rfl
    | some v =>
      rw [htr] at h1 h2 h3 h4 h5
      dsimp only at h1 h2 h3 h4 h5
      have hb1 : ¬ (owlGeonamesIdent.isPrefixOf v = true) := by
        intro hb; rw [if_pos hb] at h1; cases h1
      have hb2 : ¬ (owlGndIdent.isPrefixOf v = true) := by
        intro hb; rw [if_pos hb] at h2; cases h2
      have hb3 : ¬ (owlLocIdent.isPrefixOf v = true) := by
        intro hb; rw [if_pos hb] at h3; cases h3
      have hb4 : ¬ (owlViafIdent.isPrefixOf v = true) := by
        intro hb; rw [if_pos hb] at h4; cases h4
      have hb5 : ¬ (owlWikidataIdent.isPrefixOf v = true) := by
        intro hb; rw [if_pos hb] at h5; cases h5
      simp [hb1, hb2, hb3, hb4, hb5]

/-- C2 (witness): an IRI outside every known namespace leaves all five
accumulated identifiers unchanged. -/
theorem c2_owl_last_match_wins_witness :
    owlStep ⟨none, none, none, none, none⟩ (some "http://example.org/x".toList)
      = ⟨none, none, none, none, none⟩ :=
  c2_owl_last_match_wins.2 ⟨none, none, none, none, none⟩
    (some "http://example.org/x".toList)
    (by decide) (by decide) (by decide) (by decide) (by decide)

/-- C2 (counterexample): a DNB object whose same-as list holds two GND IRIs
stores the identifier derived from the SECOND (last) entry, not the first,
contradicting the first-match-wins claim. -/
theorem c2_counterexample :
    ((json_import_dnb false emptyDB
        [⟨some "https://d-nb.info/gnd/X1".toList,
          [some "https://d-nb.info/gnd/111".toList, some "https://d-nb.info/gnd/222".toList],
          [], [], []⟩]).db.dnb_meta.map (fun r => r.owl_gnd))
      = [some "222".toList] ∧ "222".toList ≠ "111".toList := by
  decide

/-! ### Old-authority parsing -/

theorem pyFindAux_append {c : Char} : ∀ (l1 l2 : List Char) (i : Nat),
    c ∉ l1 → pyFindAux (l1 ++ c :: l2) c i = ((i + l1.length : Nat) : Int) := by
  intro l1
  induction l1 with
  | nil =>
    intro l2 i _
    simp [pyFindAux]
  | cons x rest ih =>
    intro l2 i h
    have hx : ¬ x = c := by
      intro he
      exact h (by simp [he])
    rw [List.cons_append]
    unfold pyFindAux
    rw [if_neg hx, ih l2 (i + 1) (by intro hm; exact h (by simp [hm]))]
    simp only [List.length_cons]
    push_cast
    ring

theorem pyFindAux_eq_ofNat {c : Char} : ∀ (s : List Char) (i j : Nat),
    pyFindAux s c i = (j : Int) →
    i ≤ j ∧ ∃ l1 l2, s = l1 ++ c :: l2 ∧ i + l1.length = j ∧ c ∉ l1 := by
  intro s
  induction s with
  | nil =>
    intro i j h
    unfold pyFindAux at h
    exact absurd h (by omega)
  | cons x rest ih =>
    intro i j h
    unfold pyFindAux at h
    by_cases hx : x = c
    · rw [if_pos hx] at h
      have hij : i = j := by exact_mod_cast h
      subst hij
      subst hx
      exact ⟨le_refl _, [], rest, rfl, by simp, by simp⟩
    · rw [if_neg hx] at h
      obtain ⟨hij, l1, l2, hs, hlen, hnot⟩ := ih (i + 1) j h
      refine ⟨by omega, x :: l1, l2, by rw [hs]; rfl, by simp; omega, ?_⟩
      intro hm
      rcases List.mem_cons.mp hm with hm1 | hm2
      · exact hx hm1.symm
      · exact hnot hm2

/-- C3: a raw old-authority value of the canonical form `(P)V` (opening
parenthesis first, non-empty prefix free of closing parentheses, closing
parenthesis, remainder) parses to that prefix and that remainder; any other
value parses to two nulls; and the raw value is stored verbatim in the
`number` column together with the two parsed fields. -/
theorem c3_old_auth_parsing (v : List Char) :
    (∀ P V : List Char, v = '(' :: (P ++ ')' :: V) → P ≠ [] → ')' ∉ P →
      parseOldAuth v = (some P, some V)) ∧
    ((¬ ∃ P V : List Char, v = '(' :: (P ++ ')' :: V) ∧ P ≠ [] ∧ ')' ∉ P) →
      parseOldAuth v = (none, none)) ∧
    (∀ (st : DB) (d : List Char),
      (insertOldAuths st [(d, v)]).dnb_old_auth =
        st.dnb_old_auth ++
          [⟨st.nextOldAuthId, lookupDnbMetaId st d, v, (parseOldAuth v).1,
            (parseOldAuth v).2⟩]) := by
  refine ⟨?_, ?_, ?_⟩
  · intro P V hv hPne hPnot
    subst hv
    have hi : pyFind ('(' :: (P ++ ')' :: V)) '(' = 0 := by
      unfold pyFind pyFindAux
      simp
    have hnot1 : ')' ∉ '(' :: P := by
      intro hm
      rcases List.mem_cons.mp hm with hm1 | hm2
      · cases hm1
      · exact hPnot hm2
    have hj : pyFind ('(' :: (P ++ ')' :: V)) ')' = ((P.length + 1 : Nat) : Int) := by
      have := pyFindAux_append ('(' :: P) V 0 hnot1
      simpa [pyFind] using this
    have hP1 : 1 ≤ P.length := by
      cases P with
      | nil => exact absurd rfl hPne
      | cons a as => simp
    unfold parseOldAuth
    rw [hi, hj, if_pos (by constructor <;> [rfl; (push_cast; omega)])]
    have ht : ((P.length + 1 : Nat) : Int).toNat = P.length + 1 := by omega
    rw [ht]
    congr 1
    · congr 1
      simp only [List.drop_succ_cons, List.drop_zero, Nat.add_sub_cancel]
      exact List.take_left' rfl
    · congr 1
      have hre : '(' :: (P ++ ')' :: V) = ('(' :: P ++ [')']) ++ V := by simp
      rw [hre]
      exact List.drop_left' (by simp)
  · intro hne
    unfold parseOldAuth
    rw [if_neg]
    intro ⟨hi, hj⟩
    have hj0 : ∃ jn : Nat, pyFind v ')' = (jn : Int) ∧ 1 < jn := by
      refine ⟨(pyFind v ')').toNat, ?_, ?_⟩ <;> omega
    obtain ⟨jn, hjn, hjn1⟩ := hj0
    obtain ⟨-, l1, l2, hv1, hlen1, hnot1⟩ := pyFindAux_eq_ofNat v 0 jn (by simpa [pyFind] using hjn)
    have hi0 : pyFind v '(' = ((0 : Nat) : Int) := by simpa using hi
    obtain ⟨-, m1, m2, hv2, hlen2, -⟩ := pyFindAux_eq_ofNat v 0 0 (by simpa [pyFind] using hi0)
    have hm1nil : m1 = [] := by
      cases m1 with
      | nil => rfl
      | cons a as => simp at hlen2
    subst hm1nil
    rw [List.nil_append] at hv2
    cases l1 with
    | nil =>
      rw [List.nil_append] at hv1
      rw [hv2] at hv1
      injection hv1 with h1 h2
      exact absurd h1 (by decide)
    | cons a as =>
      have ha : a = '(' := by
        rw [hv2] at hv1
        injection hv1 with h1 _
        exact h1.symm
      subst ha
      refine hne ⟨as, l2, ?_, ?_, ?_⟩
      · rw [hv1]
        simp
      · intro hasnil
        subst hasnil
        simp at hlen1
        omega
      · intro hm
        exact hnot1 (List.mem_cons_of_mem _ hm)
  · intro st d
    rfl

/-- C3 (witness): the two documented examples, a value of the canonical
form and a bare number. -/
theorem c3_old_auth_parsing_witness :
    parseOldAuth "(DE-588)118540238".toList
        = (some "DE-588".toList, some "118540238".toList) ∧
      parseOldAuth "118540238".toList = (none, none) := by
  constructor
  · exact (c3_old_auth_parsing "(DE-588)118540238".toList).1
      "DE-588".toList "118540238".toList (by decide) (by decide) (by decide)
  · refine (c3_old_auth_parsing "118540238".toList).2.1 ?_
    rintro ⟨P, V, hv, -, -⟩
    have : "118540238".toList.head? = some '(' := by rw [hv]; rfl
    simp at this

/-! ### Record-level import -/

theorem insertVarNames_spec : ∀ (vs : List (List Char × List Char)) (st : DB),
    (insertVarNames st vs).dnb_meta = st.dnb_meta ∧
    (insertVarNames st vs).dnb_old_auth = st.dnb_old_auth ∧
    (insertVarNames st vs).dnb_name.map (fun r => r.var_name)
      = st.dnb_name.map (fun r => r.var_name) ++ vs.map Prod.snd := by
  intro vs
  induction vs with
  | nil => intro st; exact ⟨rfl, rfl, by simp [insertVarNames]⟩
  | cons v vs ih =>
    intro st
    have hstep : insertVarNames st (v :: vs) =
        insertVarNames
          { st with
            dnb_name := st.dnb_name ++ [⟨st.nextDnbNameId, lookupDnbMetaId st v.1, v.2⟩],
            nextDnbNameId := st.nextDnbNameId + 1 } vs := rfl
    rw [hstep]
    obtain ⟨ha, hb, hc⟩ := ih _
    refine ⟨ha, hb, ?_⟩
    rw [hc]
    simp

theorem insertOldAuths_spec : ∀ (vs : List (List Char × List Char)) (st : DB),
    (insertOldAuths st vs).dnb_meta = st.dnb_meta ∧
    (insertOldAuths st vs).dnb_name = st.dnb_name ∧
    (insertOldAuths st vs).dnb_old_auth.map (fun r => r.number)
      = st.dnb_old_auth.map (fun r => r.number) ++ vs.map Prod.snd := by
  intro vs
  induction vs with
  | nil => intro st; exact ⟨rfl, rfl, by simp [insertOldAuths]⟩
  | cons v vs ih =>
    intro st
    have hstep : insertOldAuths st (v :: vs) =
        insertOldAuths
          { st with
            dnb_old_auth := st.dnb_old_auth ++
              [⟨st.nextOldAuthId, lookupDnbMetaId st v.1, v.2,
                (parseOldAuth v.2).1, (parseOldAuth v.2).2⟩],
            nextOldAuthId := st.nextOldAuthId + 1 } vs := rfl
    rw [hstep]
    obtain ⟨ha, hb, hc⟩ := ih _
    refine ⟨ha, hb, ?_⟩
    rw [hc]
    simp

theorem truthyList_eq_none {o : Option (List (List Char × List Char))}
    (h : truthyList o = none) : o = none ∨ o = some [] := by
  cases o with
  | none => exact Or.inl rfl
  | some l =>
    cases l with
    | nil => exact Or.inr rfl
    | cons a t => exact absurd h (by simp [truthyList])

theorem truthyList_eq_some {o : Option (List (List Char × List Char))} {l}
    (h : truthyList o = some l) : o = some l := by
  cases o with
  | none => exact absurd h (by simp [truthyList])
  | some m =>
    cases m with
    | nil => exact absurd h (by simp [truthyList])
    | cons a t =>
      simp only [truthyList] at h
      exact h

theorem db_import_dnb_ok_exists (st : DB) (dnbId : List Char)
    (prefName g1 g2 g3 g4 g5 : Option (List Char))
    (varNames oldAuths : Option (List (List Char × List Char)))
    (h : st.dnb_meta.any (fun r => r.dnb_id == dnbId) = false) :
    ∃ res : ImportResult,
      db_import_dnb st dnbId prefName g1 g2 g3 g4 g5 varNames oldAuths = Except.ok res ∧
      res.db.dnb_meta = st.dnb_meta ++
        [⟨st.nextDnbMetaId, dnbId, prefName, g1, g2, g3, g4, g5⟩] ∧
      res.db.dnb_name.map (fun r => r.var_name)
        = st.dnb_name.map (fun r => r.var_name) ++
          (match varNames with | some vs => vs.map Prod.snd | none => []) ∧
      res.db.dnb_old_auth.map (fun r => r.number)
        = st.dnb_old_auth.map (fun r => r.number) ++
          (match oldAuths with | some os => os.map Prod.snd | none => []) ∧
      res.commits.head? = some
        { st with
          dnb_meta := st.dnb_meta ++
            [⟨st.nextDnbMetaId, dnbId, prefName, g1, g2, g3, g4, g5⟩],
          nextDnbMetaId := st.nextDnbMetaId + 1 } ∧
      res.commits.getLast? = some res.db ∧
      res.commits.length =
        1 + (if truthyList varNames = none then 0 else 1) +
          (if truthyList oldAuths = none then 0 else 1) := by
  unfold db_import_dnb
  simp only [h, Bool.false_eq_true, if_false]
  cases hv : truthyList varNames with
  | none =>
    have hvs : (match varNames with
        | some vs => vs.map Prod.snd
        | none => ([] : List (List Char))) = [] := by
      rcases truthyList_eq_none hv with rfl | rfl <;> rfl
    cases ho : truthyList oldAuths with
    | none =>
      have hos : (match oldAuths with
          | some os => os.map Prod.snd
          | none => ([] : List (List Char))) = [] := by
        rcases truthyList_eq_none ho with rfl | rfl <;> rfl
      refine ⟨_, rfl, rfl, ?_, ?_, rfl, rfl, by simp [hv, ho]⟩
      · rw [hvs]
        simp
      · rw [hos]
        simp
    | some os =>
      obtain rfl := truthyList_eq_some ho
      obtain ⟨hm, hn, ha⟩ := insertOldAuths_spec os
        { st with
          dnb_meta := st.dnb_meta ++
            [⟨st.nextDnbMetaId, dnbId, prefName, g1, g2, g3, g4, g5⟩],
          nextDnbMetaId := st.nextDnbMetaId + 1 }
      refine ⟨_, rfl, by rw [hm], ?_, ?_, rfl, by simp, by simp [hv, ho]⟩
      · rw [hn, hvs]
        simp
      · rw [ha]
  | some vs =>
    obtain rfl := truthyList_eq_some hv
    obtain ⟨hm1, ho1, hn1⟩ := insertVarNames_spec vs
      { st with
        dnb_meta := st.dnb_meta ++
          [⟨st.nextDnbMetaId, dnbId, prefName, g1, g2, g3, g4, g5⟩],
        nextDnbMetaId := st.nextDnbMetaId + 1 }
    cases ho : truthyList oldAuths with
    | none =>
      have hos : (match oldAuths with
          | some os => os.map Prod.snd
          | none => ([] : List (List Char))) = [] := by
        rcases truthyList_eq_none ho with rfl | rfl <;> rfl
      refine ⟨_, rfl, by rw [hm1], ?_, ?_, rfl, by simp, by simp [hv, ho]⟩
      · rw [hn1]
      · rw [ho1, hos]
        simp
    | some os =>
      obtain rfl := truthyList_eq_some ho
      obtain ⟨hm2, hn2, ha2⟩ := insertOldAuths_spec os (insertVarNames
        { st with
          dnb_meta := st.dnb_meta ++
            [⟨st.nextDnbMetaId, dnbId, prefName, g1, g2, g3, g4, g5⟩],
          nextDnbMetaId := st.nextDnbMetaId + 1 } vs)
      refine ⟨_, rfl, by rw [hm2, hm1], ?_, ?_, rfl, by simp, by simp [hv, ho]⟩
      · rw [hn2, hn1]
      · rw [ha2, ho1]

/-- C5 (amended): an accepted record is not committed as one atomic unit
but in up to three separately committed batches inside `db_import_dnb`:
first the parent row alone, then the variant-name rows if any, then the
old-authority rows if any; only after the last of these commits is the
record fully persisted, the final committed state being the final
database. -/
theorem c5_commit_granularity (st : DB) (dnbId : List Char)
    (prefName g1 g2 g3 g4 g5 : Option (List Char))
    (varNames oldAuths : Option (List (List Char × List Char)))
    (h : st.dnb_meta.any (fun r => r.dnb_id == dnbId) = false) :
    ∃ res : ImportResult,
      db_import_dnb st dnbId prefName g1 g2 g3 g4 g5 varNames oldAuths = Except.ok res ∧
      res.commits.head? = some
        { st with
          dnb_meta := st.dnb_meta ++
            [⟨st.nextDnbMetaId, dnbId, prefName, g1, g2, g3, g4, g5⟩],
          nextDnbMetaId := st.nextDnbMetaId + 1 } ∧
      res.commits.getLast? = some res.db ∧
      res.commits.length =
        1 + (if truthyList varNames = none then 0 else 1) +
          (if truthyList oldAuths = none then 0 else 1) := by
  obtain ⟨res, heq, -, -, -, hhead, hlast, hlen⟩ :=
    db_import_dnb_ok_exists st dnbId prefName g1 g2 g3 g4 g5 varNames oldAuths h
  exact ⟨res, heq, hhead, hlast, hlen⟩

/-- C5 (witness): instantiation at the empty database with one variant
name, giving two commits whose first is the parent-only state. -/
theorem c5_commit_granularity_witness :
    ∃ res : ImportResult,
      db_import_dnb emptyDB "x1".toList none none none none none none
          (some [("x1".toList, "abc".toList)]) none = Except.ok res ∧
      res.commits.head? = some
        { emptyDB with
          dnb_meta := emptyDB.dnb_meta ++
            [⟨emptyDB.nextDnbMetaId, "x1".toList, none, none, none, none, none, none⟩],
          nextDnbMetaId := emptyDB.nextDnbMetaId + 1 } ∧
      res.commits.getLast? = some res.db ∧
      res.commits.length =
        1 + (if truthyList (some [("x1".toList, "abc".toList)]) = none then 0 else 1) +
          (if truthyList (none : Option (List (List Char × List Char))) = none then 0 else 1) :=
  c5_commit_granularity emptyDB "x1".toList none none none none none none
    (some [("x1".toList, "abc".toList)]) none (by decide)

/-- C5 (counterexample): importing one record with one variant name commits
twice; the first committed state holds the parent row with zero children
while the finally committed record has one child, so a commit point exposes
a partially written record, contradicting the single-atomic-unit claim. -/
theorem c5_counterexample :
    ((db_import_dnb emptyDB "x1".toList none none none none none none
        (some [("x1".toList, "abc".toList)]) none).toOption.map
      (fun res => (res.commits.map (fun d => (d.dnb_meta.length, d.dnb_name.length)),
        res.db.dnb_name.length)))
      = some ([(1, 0), (1, 1)], 1) := by
  decide

/-! ### Object-level ingestion -/

theorem filterMap_pair_snd (d : List Char) (lst : List (Option (List Char))) :
    (lst.filterMap (fun e => (truthy e).map (fun v => (d, v)))).map Prod.snd
      = lst.filterMap truthy := by
  induction lst with
  | nil => rfl
  | cons e l ih =>
    cases he : truthy e with
    | none => simp [List.filterMap_cons, he, ih]
    | some v => simp [List.filterMap_cons, he, ih]

theorem processDnbObj_accept (flag : Bool) (st : IngestState) (obj : DnbObj) (objId : List Char)
    (h1 : truthy obj.atId = some objId)
    (hp : dnbIdent.isPrefixOf objId = true)
    (ha : ("/about".toList).isSuffixOf objId = false)
    (hclean : st.db.dnb_meta.any
      (fun r => r.dnb_id == objId.drop dnbIdent.length) = false) :
    (processDnbObj flag st obj).db.dnb_meta = st.db.dnb_meta ++
        [⟨st.db.nextDnbMetaId, objId.drop dnbIdent.length,
          (obj.prefNameList.head?).bind id,
          (extractOwl obj.owlSameAs).geonames, (extractOwl obj.owlSameAs).gnd,
          (extractOwl obj.owlSameAs).loc, (extractOwl obj.owlSameAs).viaf,
          (extractOwl obj.owlSameAs).wikidata⟩] ∧
    (processDnbObj flag st obj).db.dnb_name.map (fun r => r.var_name)
        = st.db.dnb_name.map (fun r => r.var_name) ++ obj.varNameList.filterMap truthy ∧
    (processDnbObj flag st obj).db.dnb_old_auth.map (fun r => r.number)
        = st.db.dnb_old_auth.map (fun r => r.number) ++
          (if flag then obj.oldAuthList.filterMap truthy else []) ∧
    (processDnbObj flag st obj).n = st.n + 1 ∧
    (processDnbObj flag st obj).log
        = st.log ++ [.importing (objId.drop dnbIdent.length) st.n] ++
          (if (st.n + 1) % 10000 = 0 then [.progress (st.n + 1)] else []) := by
  have hcond : ¬ (¬ (dnbIdent.isPrefixOf objId = true) ∨
      (("/about".toList).isSuffixOf objId = true)) := by
    rw [hp, ha]
    simp
  obtain ⟨res, heq, hmeta, hname, hauth, -, -, -⟩ :=
    db_import_dnb_ok_exists st.db (objId.drop dnbIdent.length)
      ((obj.prefNameList.head?).bind id)
      (extractOwl obj.owlSameAs).geonames (extractOwl obj.owlSameAs).gnd
      (extractOwl obj.owlSameAs).loc (extractOwl obj.owlSameAs).viaf
      (extractOwl obj.owlSameAs).wikidata
      (if obj.varNameList = [] then none
        else some (obj.varNameList.filterMap
          (fun e => (truthy e).map (fun v => (objId.drop dnbIdent.length, v)))))
      (if flag then
        (if obj.oldAuthList = [] then none
          else some (obj.oldAuthList.filterMap
            (fun e => (truthy e).map (fun v => (objId.drop dnbIdent.length, v)))))
        else none)
      hclean
  have hkey : processDnbObj flag st obj =
      { db := res.db, n := st.n + 1,
        log := (st.log ++ [.importing (objId.drop dnbIdent.length) st.n]) ++
          (if (st.n + 1) % 10000 = 0 then [.progress (st.n + 1)] else []),
        commits := st.commits ++ res.commits } := by
    unfold processDnbObj
    rw [h1]
    dsimp only
    rw [if_neg hcond, heq]
  rw [hkey]
  refine ⟨hmeta, ?_, ?_, rfl, rfl⟩
  · rw [hname]
    by_cases hv : obj.varNameList = []
    · rw [if_pos hv, hv]
      rfl
    · rw [if_neg hv]
      dsimp only
      rw [filterMap_pair_snd]
  · rw [hauth]
    cases flag with
    | false => rfl
    | true =>
      rw [if_pos rfl, if_pos rfl]
      by_cases hv : obj.oldAuthList = []
      · rw [if_pos hv, hv]
        rfl
      · rw [if_neg hv]
        dsimp only
        rw [filterMap_pair_snd]

theorem processDnbObj_duplicate (flag : Bool) (st : IngestState) (obj : DnbObj)
    (objId : List Char)
    (h1 : truthy obj.atId = some objId)
    (hp : dnbIdent.isPrefixOf objId = true)
    (ha : ("/about".toList).isSuffixOf objId = false)
    (hdup : st.db.dnb_meta.any
      (fun r => r.dnb_id == objId.drop dnbIdent.length) = true) :
    processDnbObj flag st obj =
      { st with log := (st.log ++ [.importing (objId.drop dnbIdent.length) st.n]) ++
          [.duplicate (objId.drop dnbIdent.length)] } := by
  have hcond : ¬ (¬ (dnbIdent.isPrefixOf objId = true) ∨
      (("/about".toList).isSuffixOf objId = true)) := by
    rw [hp, ha]
    simp
  unfold processDnbObj
  rw [h1]
  dsimp only
  rw [if_neg hcond]
  have herr : db_import_dnb st.db (objId.drop dnbIdent.length)
      ((obj.prefNameList.head?).bind id)
      (extractOwl obj.owlSameAs).geonames (extractOwl obj.owlSameAs).gnd
      (extractOwl obj.owlSameAs).loc (extractOwl obj.owlSameAs).viaf
      (extractOwl obj.owlSameAs).wikidata
      (if obj.varNameList = [] then none
        else some (obj.varNameList.filterMap
          (fun e => (truthy e).map (fun v => (objId.drop dnbIdent.length, v)))))
      (if flag then
        (if obj.oldAuthList = [] then none
          else some (obj.oldAuthList.filterMap
            (fun e => (truthy e).map (fun v => (objId.drop dnbIdent.length, v)))))
        else none) = Except.error () := by
    unfold db_import_dnb
    simp only [hdup, if_true]
  rw [herr]

/-- C9: ingesting an object with no `@id` key stores nothing, increments
the rejected-record count (realised in the code as one logged rejection
event per rejected object) by one, leaves the accepted count unchanged,
and ingestion continues with the next object. -/
theorem c9_missing_id_rejected (flag : Bool) (st : IngestState) (obj : DnbObj)
    (rest : List DnbObj) (h : obj.atId = none) :
    processDnbObj flag st obj = { st with log := st.log ++ [.noId st.n] } ∧
    (processDnbObj flag st obj).db = st.db ∧
    (processDnbObj flag st obj).n = st.n ∧
    rejectedCount (processDnbObj flag st obj).log = rejectedCount st.log + 1 ∧
    List.foldl (processDnbObj flag) st (obj :: rest)
      = List.foldl (processDnbObj flag) (processDnbObj flag st obj) rest := by
  have h1 : processDnbObj flag st obj = { st with log := st.log ++ [.noId st.n] } := by
    unfold processDnbObj
    rw [h]
    rfl
  refine ⟨h1, by rw [h1], by rw [h1], ?_, by rw [List.foldl_cons]⟩
  rw [h1]
  unfold rejectedCount
  rw [List.countP_append]
  rfl

/-- C9 (witness): a concrete object without an `@id` key is stored zero
times, counted once as rejected, and the accepted count stays zero. -/
theorem c9_missing_id_rejected_witness :
    processDnbObj false ⟨emptyDB, 0, [], []⟩ ⟨none, [], [], [], []⟩
        = { db := emptyDB, n := 0, log := [.noId 0], commits := [] } ∧
      (processDnbObj false ⟨emptyDB, 0, [], []⟩ ⟨none, [], [], [], []⟩).db = emptyDB ∧
      (processDnbObj false ⟨emptyDB, 0, [], []⟩ ⟨none, [], [], [], []⟩).n = 0 ∧
      rejectedCount (processDnbObj false ⟨emptyDB, 0, [], []⟩ ⟨none, [], [], [], []⟩).log
        = rejectedCount [] + 1 ∧
      List.foldl (processDnbObj false) ⟨emptyDB, 0, [], []⟩ [⟨none, [], [], [], []⟩]
        = List.foldl (processDnbObj false)
            (processDnbObj false ⟨emptyDB, 0, [], []⟩ ⟨none, [], [], [], []⟩) [] :=
  c9_missing_id_rejected false ⟨emptyDB, 0, [], []⟩ ⟨none, [], [], [], []⟩ [] rfl

/-- C10: for an accepted object, a variant-name or old-authority entry
whose value is absent or empty yields no child row, while the parent row
and the remaining non-empty entries are inserted normally, the variant
name texts being exactly the truthy entries in order. -/
theorem c10_falsy_children_skipped (flag : Bool) (st : IngestState) (obj : DnbObj)
    (objId : List Char)
    (h1 : truthy obj.atId = some objId)
    (hp : dnbIdent.isPrefixOf objId = true)
    (ha : ("/about".toList).isSuffixOf objId = false)
    (hclean : st.db.dnb_meta.any
      (fun r => r.dnb_id == objId.drop dnbIdent.length) = false) :
    (processDnbObj flag st obj).db.dnb_name.map (fun r => r.var_name)
        = st.db.dnb_name.map (fun r => r.var_name) ++ obj.varNameList.filterMap truthy ∧
    (processDnbObj flag st obj).db.dnb_old_auth.map (fun r => r.number)
        = st.db.dnb_old_auth.map (fun r => r.number) ++
          (if flag then obj.oldAuthList.filterMap truthy else []) ∧
    (processDnbObj flag st obj).db.dnb_meta = st.db.dnb_meta ++
        [⟨st.db.nextDnbMetaId, objId.drop dnbIdent.length,
          (obj.prefNameList.head?).bind id,
          (extractOwl obj.owlSameAs).geonames, (extractOwl obj.owlSameAs).gnd,
          (extractOwl obj.owlSameAs).loc, (extractOwl obj.owlSameAs).viaf,
          (extractOwl obj.owlSameAs).wikidata⟩] := by
  obtain ⟨hm, hn, ho, -, -⟩ := processDnbObj_accept flag st obj objId h1 hp ha hclean
  exact ⟨hn, ho, hm⟩

/-- C10 (witness): an accepted object with one missing value, one empty
value and two non-empty values among its children produces exactly the two
non-empty child rows plus the parent. -/
theorem c10_falsy_children_skipped_witness :
    (processDnbObj true ⟨emptyDB, 0, [], []⟩
        ⟨some "https://d-nb.info/gnd/X7".toList, [], [],
          [none, some [], some "ab".toList, some "cd".toList],
          [some [], some "(p)q".toList]⟩).db.dnb_name.map (fun r => r.var_name)
      = [] ++ [none, some ([] : List Char), some "ab".toList,
          some "cd".toList].filterMap truthy ∧
    (processDnbObj true ⟨emptyDB, 0, [], []⟩
        ⟨some "https://d-nb.info/gnd/X7".toList, [], [],
          [none, some [], some "ab".toList, some "cd".toList],
          [some [], some "(p)q".toList]⟩).db.dnb_old_auth.map (fun r => r.number)
      = [] ++ (if true then [some ([] : List Char),
          some "(p)q".toList].filterMap truthy else []) ∧
    (processDnbObj true ⟨emptyDB, 0, [], []⟩
        ⟨some "https://d-nb.info/gnd/X7".toList, [], [],
          [none, some [], some "ab".toList, some "cd".toList],
          [some [], some "(p)q".toList]⟩).db.dnb_meta
      = [] ++ [⟨1, "X7".toList, none, none, none, none, none, none⟩] := by
  have h := c10_falsy_children_skipped true ⟨emptyDB, 0, [], []⟩
    ⟨some "https://d-nb.info/gnd/X7".toList, [], [],
      [none, some [], some "ab".toList, some "cd".toList],
      [some [], some "(p)q".toList]⟩
    "https://d-nb.info/gnd/X7".toList (by decide) (by decide) (by decide) (by decide)
  exact h

/-- C6: ingesting two objects carrying the same DNB id results in exactly
one stored row for that id (the one from the first object), one logged
duplicate warning naming the id, an accepted count of one, and the fold
over the remaining objects continuing normally. -/
theorem c6_duplicate_id (flag : Bool) (db0 : DB) (obj1 obj2 : DnbObj)
    (objId1 objId2 : List Char)
    (h1 : truthy obj1.atId = some objId1)
    (h2 : truthy obj2.atId = some objId2)
    (hp1 : dnbIdent.isPrefixOf objId1 = true)
    (ha1 : ("/about".toList).isSuffixOf objId1 = false)
    (hp2 : dnbIdent.isPrefixOf objId2 = true)
    (ha2 : ("/about".toList).isSuffixOf objId2 = false)
    (hsame : objId2.drop dnbIdent.length = objId1.drop dnbIdent.length)
    (hclean : db0.dnb_meta.all
      (fun r => !(r.dnb_id == objId1.drop dnbIdent.length)) = true) :
    ((json_import_dnb flag db0 [obj1, obj2]).db.dnb_meta.filter
        (fun r => r.dnb_id == objId1.drop dnbIdent.length)).length = 1 ∧
    (json_import_dnb flag db0 [obj1, obj2]).db.dnb_meta.filter
        (fun r => r.dnb_id == objId1.drop dnbIdent.length)
      = (processDnbObj flag ⟨db0, 0, [], []⟩ obj1).db.dnb_meta.filter
          (fun r => r.dnb_id == objId1.drop dnbIdent.length) ∧
    duplicateCount (json_import_dnb flag db0 [obj1, obj2]).log
        (objId1.drop dnbIdent.length) = 1 ∧
    (json_import_dnb flag db0 [obj1, obj2]).n = 1 ∧
    (∀ rest : List DnbObj,
      List.foldl (processDnbObj flag) ⟨db0, 0, [], []⟩ ([obj1, obj2] ++ rest)
        = List.foldl (processDnbObj flag)
            (List.foldl (processDnbObj flag) ⟨db0, 0, [], []⟩ [obj1, obj2]) rest) := by
  have hcleanAny : db0.dnb_meta.any
      (fun r => r.dnb_id == objId1.drop dnbIdent.length) = false := by
    rw [← Bool.not_eq_true]
    intro hco
    rw [List.any_eq_true] at hco
    obtain ⟨r, hr, hrt⟩ := hco
    rw [List.all_eq_true] at hclean
    have := hclean r hr
    rw [hrt] at this
    cases this
  obtain ⟨hm1, -, -, hn1, hl1⟩ :=
    processDnbObj_accept flag ⟨db0, 0, [], []⟩ obj1 objId1 h1 hp1 ha1 hcleanAny
  have hdup2 : (processDnbObj flag ⟨db0, 0, [], []⟩ obj1).db.dnb_meta.any
      (fun r => r.dnb_id == objId2.drop dnbIdent.length) = true := by
    rw [hsame, hm1, List.any_append]
    simp
  have hstep2 := processDnbObj_duplicate flag
    (processDnbObj flag ⟨db0, 0, [], []⟩ obj1) obj2 objId2 h2 hp2 ha2 hdup2
  have hfold : json_import_dnb flag db0 [obj1, obj2] =
      { processDnbObj flag (processDnbObj flag ⟨db0, 0, [], []⟩ obj1) obj2 with
        log := (processDnbObj flag (processDnbObj flag ⟨db0, 0, [], []⟩ obj1) obj2).log ++
          [.total (processDnbObj flag (processDnbObj flag ⟨db0, 0, [], []⟩ obj1) obj2).n] } := by
    rfl
  have hfilter0 : db0.dnb_meta.filter
      (fun r => r.dnb_id == objId1.drop dnbIdent.length) = [] := by
    rw [List.filter_eq_nil_iff]
    intro r hr
    rw [List.all_eq_true] at hclean
    have := hclean r hr
    simpa using this
  refine ⟨?_, ?_, ?_, ?_, ?_⟩
  · rw [hfold, hstep2]
    dsimp only
    rw [hm1, List.filter_append, hfilter0]
    simp
  · rw [hfold, hstep2]
  · rw [hfold, hstep2]
    dsimp only
    rw [hl1, hn1, hsame]
    dsimp only
    norm_num [duplicateCount, List.countP_append, List.countP_cons]
  · rw [hfold, hstep2]
    dsimp only
    rw [hn1]
  · intro rest
    rw [List.foldl_append]

/-- C6 (witness): ingesting the same concrete DNB object twice stores one
row, logs one duplicate warning, and accepts one record. -/
theorem c6_duplicate_id_witness :
    ((json_import_dnb false emptyDB
        [⟨some "https://d-nb.info/gnd/D9".toList, [], [], [], []⟩,
         ⟨some "https://d-nb.info/gnd/D9".toList, [], [], [], []⟩]).db.dnb_meta.filter
        (fun r => r.dnb_id ==
          ("https://d-nb.info/gnd/D9".toList).drop dnbIdent.length)).length = 1 ∧
    duplicateCount
      (json_import_dnb false emptyDB
        [⟨some "https://d-nb.info/gnd/D9".toList, [], [], [], []⟩,
         ⟨some "https://d-nb.info/gnd/D9".toList, [], [], [], []⟩]).log
      (("https://d-nb.info/gnd/D9".toList).drop dnbIdent.length) = 1 ∧
    (json_import_dnb false emptyDB
        [⟨some "https://d-nb.info/gnd/D9".toList, [], [], [], []⟩,
         ⟨some "https://d-nb.info/gnd/D9".toList, [], [], [], []⟩]).n = 1 := by
  have h := c6_duplicate_id false emptyDB
    ⟨some "https://d-nb.info/gnd/D9".toList, [], [], [], []⟩
    ⟨some "https://d-nb.info/gnd/D9".toList, [], [], [], []⟩
    "https://d-nb.info/gnd/D9".toList "https://d-nb.info/gnd/D9".toList
    (by decide) (by decide) (by decide) (by decide) (by decide) (by decide)
    (by decide) (by decide)
  exact ⟨h.1, h.2.2.1, h.2.2.2.1⟩

end GazGnd
